import Mathlib

/-!
Shallow embedding of `src/bellman/src/multicore.rs`: a dual-backend
parallel-execution abstraction.  The `multicore` cfg module (thread pool,
crossbeam scopes) is embedded in namespace `Multicore`; the
`not(multicore)` fallback module in namespace `Fallback`.

Machine integers are modelled as `Nat`; overflow is made explicit exactly
where it matters: the loop guard `1 << (pow + 1)` of `log2_floor` shifts a
64-bit `usize`, so a shift amount of 64 or more is an arithmetic overflow.
Rust gives that overflow two semantics: with overflow checks (debug
profile) the shift panics; without (release profile) the shift amount is
masked modulo the bit width.  Both are embedded below (`log2_floor` for the
checked semantics, `log2FloorLoop` for the masked semantics, fuel-based).

Fallible / panicking code returns `Option`; side-effecting closures are
embedded as explicit state transformers `S → S × _`.
-/

/-- futures 0.1 `Poll<T, E> = Result<Async<T>, E>`: a poll either reports
the value is not yet ready, or yields a terminal success, or a terminal
failure. -/
inductive Poll (T E : Type) where
  | notReady
  | ready (t : T)
  | err (e : E)
deriving DecidableEq

namespace Multicore

/-- The body of `log2_floor`'s `while` loop under CHECKED (debug-profile)
shift semantics.  The source is

  let mut pow = 0;
  while (1 << (pow + 1)) <= num { pow += 1; }
  pow

`pow` starts at 0 and `fuel` at 63, and the invariant `pow + fuel = 63`
holds throughout, so `fuel` reaches 0 exactly when `pow = 63`, i.e. exactly
when the guard would evaluate `1 << 64`: a shift by the full width of
`usize`, which panics under checked arithmetic — embedded as `none`. -/
def log2Go (num : Nat) : Nat → Nat → Option Nat
  | _pow, 0 => none
  | pow, fuel + 1 =>
    if 1 <<< (pow + 1) ≤ num then log2Go num (pow + 1) fuel else some pow

/-- `log2_floor` under checked shift semantics.  `assert!(num > 0)` panics
(`none`) on 0 in every profile. -/
def log2_floor (num : Nat) : Option Nat :=
  if 0 < num then log2Go num 0 63 else none

/-- The same `while` loop under RELEASE (masked-shift) semantics: the shift
amount `pow + 1` is reduced mod 64 (the width of `usize`) and `pow` itself
wraps as a `u32`.  `fuel` bounds the number of iterations we observe;
`none` means the loop was still running after `fuel` iterations. -/
def log2FloorLoop (num : Nat) : Nat → Nat → Option Nat
  | _pow, 0 => none
  | pow, fuel + 1 =>
    if 1 <<< ((pow + 1) % 64) ≤ num then
      log2FloorLoop num ((pow + 1) % 2 ^ 32) fuel
    else some pow

/-- The release-semantics loop terminates on input `num`: some finite
number of iterations suffices. -/
def log2FloorLoopTerminates (num : Nat) : Prop :=
  ∃ fuel, (log2FloorLoop num 0 fuel).isSome

/-- Brute-force reference for floor(log2): the largest `p < 64` with
`2 ^ p ≤ n` (0 when none qualifies). -/
def log2_ref (n : Nat) : Nat :=
  ((List.range 64).filter (fun p => 2 ^ p ≤ n)).foldl max 0

theorem log2Go_spec (fuel : Nat) : ∀ (pow num : Nat), pow + fuel = 63 →
    2 ^ pow ≤ num → num < 2 ^ 63 →
    ∃ p, log2Go num pow fuel = some p ∧ 2 ^ p ≤ num ∧ num < 2 ^ (p + 1) := by
  induction fuel with
  | zero =>
    intro pow num hpf h1 h2
    have hpow : pow = 63 := by omega
    subst hpow
    exact absurd (lt_of_le_of_lt h1 h2) (lt_irrefl _)
  | succ fuel ih =>
    intro pow num hpf h1 h2
    simp only [log2Go]
    by_cases hg : 1 <<< (pow + 1) ≤ num
    · rw [if_pos hg]
      rw [Nat.shiftLeft_eq, one_mul] at hg
      exact ih (pow + 1) num (by omega) hg h2
    · rw [if_neg hg]
      rw [Nat.shiftLeft_eq, one_mul, not_le] at hg
      exact ⟨pow, rfl, h1, hg⟩

theorem log2FloorLoop_spec (fuel : Nat) : ∀ (pow num : Nat), 2 ^ pow ≤ num →
    num < 2 ^ 63 → num < 2 ^ (pow + fuel) →
    ∃ p, log2FloorLoop num pow fuel = some p ∧ 2 ^ p ≤ num ∧
      num < 2 ^ (p + 1) := by
  induction fuel with
  | zero =>
    intro pow num h1 _ h3
    exact absurd (lt_of_le_of_lt h1 h3) (lt_irrefl _)
  | succ fuel ih =>
    intro pow num h1 h2 h3
    have hpowlt : pow < 63 := by
      by_contra hc
      have : 2 ^ 63 ≤ 2 ^ pow := Nat.pow_le_pow_right (by omega) (by omega)
      omega
    have hm64 : (pow + 1) % 64 = pow + 1 := Nat.mod_eq_of_lt (by omega)
    have hm32 : (pow + 1) % 2 ^ 32 = pow + 1 := by
      apply Nat.mod_eq_of_lt
      have : pow + 1 < 2 ^ 6 := by omega
      exact lt_of_lt_of_le this (Nat.pow_le_pow_right (by omega) (by omega))
    simp only [log2FloorLoop, hm64, hm32]
    by_cases hg : 1 <<< (pow + 1) ≤ num
    · rw [if_pos hg]
      rw [Nat.shiftLeft_eq, one_mul] at hg
      refine ih (pow + 1) num hg h2 ?_
      have he : pow + 1 + fuel = pow + (fuel + 1) := by omega
      rw [he]
      exact h3
    · rw [if_neg hg]
      rw [Nat.shiftLeft_eq, one_mul, not_le] at hg
      exact ⟨pow, rfl, h1, hg⟩

theorem log2FloorLoop_guard_always (num : Nat) (hnum : 2 ^ 63 ≤ num)
    (fuel : Nat) : ∀ pow, log2FloorLoop num pow fuel = none := by
  induction fuel with
  | zero => intro pow; rfl
  | succ fuel ih =>
    intro pow
    have hg : 1 <<< ((pow + 1) % 64) ≤ num := by
      rw [Nat.shiftLeft_eq, one_mul]
      have h1 : (pow + 1) % 64 < 64 := Nat.mod_lt _ (by omega)
      have h2 : 2 ^ ((pow + 1) % 64) ≤ 2 ^ 63 :=
        Nat.pow_le_pow_right (by omega) (by omega)
      omega
    simp only [log2FloorLoop, if_pos hg]
    exact ih _

/-- Modelled from the spec: `futures_cpupool::CpuPool` (external crate, not
part of this repository) — a thread pool sized to a core count. -/
structure CpuPool where
  size : Nat
deriving DecidableEq

/-- Modelled from the spec: `futures_cpupool::CpuFuture` (external crate) —
the backend handle for a pool task, characterized by what its poll
currently yields: not yet ready, or the task's terminal outcome. -/
structure CpuFuture (T E : Type) where
  state : Poll T E

/-- Modelled from the spec: polling the external pool handle yields its
current state. -/
def CpuFuture.poll (c : CpuFuture T E) : Poll T E :=
  c.state

def CpuPool.new (cpus : Nat) : CpuPool :=
  ⟨cpus⟩

/-- Modelled from the spec: `CpuPool::spawn_fn(f)` schedules `f` on the
pool; whether a pool thread has finished running `f` by the time the handle
is polled is scheduling nondeterminism, passed in as the oracle
`completed`.  The handle's terminal outcome is exactly `f`'s result. -/
def CpuPool.spawn_fn (_p : CpuPool) (completed : Bool) (f : Unit → Except E T) :
    CpuFuture T E :=
  ⟨if completed then
     match f () with
     | .ok t => .ready t
     | .error e => .err e
   else .notReady⟩

/-- The two process-wide statics:
`NUM_CPUS: AtomicUsize = AtomicUsize::new(12)` and
`HAS_LOADED: AtomicBool = AtomicBool::new(false)`, as sequential state. -/
structure GlobalState where
  num_cpus : Nat
  has_loaded : Bool
deriving DecidableEq

/-- The initial values of the two statics. -/
def initialGlobal : GlobalState :=
  { num_cpus := 12, has_loaded := false }

structure Worker where
  cpus : Nat
  pool : CpuPool

/-- `Worker::new_with_cpus`: a worker over a fresh pool of `cpus` threads. -/
def Worker.new_with_cpus (cpus : Nat) : Worker :=
  { cpus := cpus, pool := CpuPool.new cpus }

/-- `Worker::new`, sequential semantics.  `detected` is the value
`num_cpus::get()` would return (host core count, external).  The source:

  if !HAS_LOADED.load() {
      NUM_CPUS.store(num_cpus::get()); HAS_LOADED.store(true)
  }
  Self::new_with_cpus(NUM_CPUS.load())
-/
def Worker.new (detected : Nat) (g : GlobalState) : GlobalState × Worker :=
  let g1 := if g.has_loaded then g
            else { num_cpus := detected, has_loaded := true }
  (g1, Worker.new_with_cpus g1.num_cpus)

/-- `Worker::log_num_cpus` — `log2_floor(self.cpus)`; `Option` because
`log2_floor` can panic. -/
def Worker.log_num_cpus (w : Worker) : Option Nat :=
  log2_floor w.cpus

/-- `WorkerFuture` of the multicore backend: wraps a `CpuFuture`. -/
structure WorkerFuture (T E : Type) where
  future : CpuFuture T E

/-- `impl Future for WorkerFuture` (multicore): `self.future.poll()`. -/
def WorkerFuture.poll (w : WorkerFuture T E) : Poll T E :=
  w.future.poll

/-- `Worker::compute` (multicore):
`WorkerFuture { future: self.pool.spawn_fn(f) }`.  `completed` is the
scheduling oracle threaded through to the pool model. -/
def Worker.compute (w : Worker) (completed : Bool) (f : Unit → Except E T) :
    WorkerFuture T E :=
  { future := w.pool.spawn_fn completed f }

/-- Placeholder for `crossbeam::thread::Scope` (external crate): only its
identity as the first argument of the `scope` callback matters here. -/
structure Scope where

/-- `Worker::scope` (multicore): computes `chunk_size` and runs the
callback inside a crossbeam scope, returning its result.  The model elides
the `.expect(...)` on thread failure (no thread faults are modelled). -/
def Worker.scope (w : Worker) (elements : Nat) (f : Scope → Nat → R) : R :=
  let chunk_size := if elements < w.cpus then 1 else elements / w.cpus
  f ⟨⟩ chunk_size

end Multicore

namespace Fallback

/-- The fallback `Worker` — a unit struct, no fields. -/
structure Worker where

/-- The fallback `DummyScope` — a unit struct. -/
structure DummyScope where

/-- futures 0.1 `future::FutureResult<T, E>` (external crate): an
already-resolved future holding one `Result`. -/
structure FutureResult (T E : Type) where
  result : Except E T

/-- Polling an already-resolved `FutureResult` yields its stored outcome at
once. -/
def FutureResult.poll (fr : FutureResult T E) : Poll T E :=
  match fr.result with
  | .ok t => .ready t
  | .error e => .err e

/-- `IntoFuture` for `Result<T, E>`: wraps the result in a resolved
`FutureResult` (this is what `f().into_future()` produces). -/
def resultIntoFuture (r : Except E T) : FutureResult T E :=
  ⟨r⟩

/-- `Worker::new` (fallback). -/
def Worker.new : Worker :=
  ⟨⟩

/-- `Worker::log_num_cpus` (fallback): returns 0 unconditionally. -/
def Worker.log_num_cpus (_w : Worker) : Nat :=
  0

/-- `Worker::compute` (fallback): `f().into_future()` — note the return
type is `R::Future` (here `FutureResult`), not the fallback
`WorkerFuture`. -/
def Worker.compute (_w : Worker) (f : Unit → Except E T) : FutureResult T E :=
  resultIntoFuture (f ())

/-- `Worker::compute` (fallback) with `f`'s side effects made explicit as a
state transformer: `f` runs to completion (state fully updated) before
`compute` returns its handle. -/
def Worker.computeSt (_w : Worker) (f : S → S × Except E T) (s : S) :
    S × FutureResult T E :=
  let r := f s
  (r.1, resultIntoFuture r.2)

/-- `Worker::scope` (fallback): `f(&DummyScope, elements)` — the callback
receives `elements` itself as the size argument. -/
def Worker.scope (_w : Worker) (elements : Nat) (f : DummyScope → Nat → R) : R :=
  f ⟨⟩ elements

/-- `Worker::scope` (fallback) with the callback's side effects made
explicit as a state transformer. -/
def Worker.scopeSt (_w : Worker) (elements : Nat)
    (f : DummyScope → Nat → S → S × R) (s : S) : S × R :=
  f ⟨⟩ elements s

/-- `DummyScope::spawn`: `f(self)` — the closure runs inline, on the
calling thread, before `spawn` returns. -/
def DummyScope.spawn (sc : DummyScope) (f : DummyScope → Unit) : Unit :=
  f sc

/-- `DummyScope::spawn` with the closure's side effects made explicit as a
state transformer. -/
def DummyScope.spawnSt (sc : DummyScope) (f : DummyScope → S → S) (s : S) : S :=
  f sc s

/-- `WorkerFuture` of the fallback backend: wraps a `FutureResult`.  (It is
declared in the source, but `compute` does not return it.) -/
structure WorkerFuture (T E : Type) where
  future : FutureResult T E

/-- `impl Future for WorkerFuture` (fallback): `self.future.poll()`. -/
def WorkerFuture.poll (w : WorkerFuture T E) : Poll T E :=
  w.future.poll

end Fallback

/-- The nominal return type of each backend's `compute`, read off the
source signatures: `workerFuture` stands for the backend's own
`WorkerFuture<...>` wrapper, `intoFutureResult` for `R::Future` (the
resolved future produced by `into_future`). -/
inductive HandleTy where
  | workerFuture
  | intoFutureResult
deriving DecidableEq

/-- Multicore `compute` signature: `-> WorkerFuture<R::Item, R::Error>`. -/
def Multicore.computeReturnTy : HandleTy :=
  .workerFuture

/-- Fallback `compute` signature: `-> R::Future`. -/
def Fallback.computeReturnTy : HandleTy :=
  .intoFutureResult

namespace Multicore

theorem log2_floor_below (n : Nat) (h1 : 0 < n) (h63 : n < 2 ^ 63) :
    ∃ p, log2_floor n = some p ∧ 2 ^ p ≤ n ∧ n < 2 ^ (p + 1) := by
  obtain ⟨p, hp, hle, hlt⟩ := log2Go_spec 63 0 n rfl (by simpa using h1) h63
  refine ⟨p, ?_, hle, hlt⟩
  rw [log2_floor, if_pos h1]
  exact hp

end Multicore

/-- C2: for every `1 ≤ n < 2 ^ 63`, `log2_floor n` returns the largest `p`
with `2 ^ p ≤ n`; for `k ≤ 62` it maps `2 ^ k` to exactly `k`; and for
every `1 ≤ n < 64` it agrees with the brute-force reference `log2_ref`.
(The claim's unrestricted domain fails at `n = 2 ^ 63`, where the loop
guard's shift overflows — see the counterexample.) -/
theorem log2_floor_correct_below_2_pow_63 :
    (∀ n : Nat, n < 2 ^ 63 → 1 ≤ n →
      ∃ p, Multicore.log2_floor n = some p ∧ 2 ^ p ≤ n ∧
        ∀ q, 2 ^ q ≤ n → q ≤ p) ∧
    (∀ k : Nat, k ≤ 62 → Multicore.log2_floor (2 ^ k) = some k) ∧
    (∀ n : Nat, n < 64 → 1 ≤ n →
      Multicore.log2_floor n = some (Multicore.log2_ref n)) := by
  refine ⟨?_, ?_, ?_⟩
  · intro n h63 h1
    obtain ⟨p, hp, hle, hlt⟩ := Multicore.log2_floor_below n h1 h63
    refine ⟨p, hp, hle, ?_⟩
    intro q hq
    by_contra hc
    have h2 : 2 ^ (p + 1) ≤ 2 ^ q := Nat.pow_le_pow_right (by omega) (by omega)
    omega
  · intro k hk
    have hkle : (2 : Nat) ^ k ≤ 2 ^ 62 := Nat.pow_le_pow_right (by omega) hk
    have h63 : (2 : Nat) ^ 63 = 2 ^ 62 * 2 := by rw [← pow_succ]
    have hpos : 0 < (2 : Nat) ^ k := Nat.pos_pow_of_pos k (by omega)
    obtain ⟨p, hp, hle, hlt⟩ := Multicore.log2_floor_below (2 ^ k) hpos (by omega)
    have h1 : p ≤ k := (Nat.pow_le_pow_iff_right (by omega)).mp hle
    have h2 : k < p + 1 := by
      by_contra hc
      have : (2 : Nat) ^ (p + 1) ≤ 2 ^ k := Nat.pow_le_pow_right (by omega) (by omega)
      omega
    have : p = k := by omega
    rw [hp, this]
  · decide

/-- C2 witness: the amended statement, instantiated at `n = 40` (first
conjunct) and `k = 5` (second conjunct). -/
theorem log2_floor_correct_below_2_pow_63_witness :
    (∃ p, Multicore.log2_floor 40 = some p ∧ 2 ^ p ≤ 40 ∧
      ∀ q, 2 ^ q ≤ 40 → q ≤ p) ∧
    Multicore.log2_floor (2 ^ 5) = some 5 :=
  ⟨log2_floor_correct_below_2_pow_63.1 40 (by decide) (by decide),
   log2_floor_correct_below_2_pow_63.2.1 5 (by decide)⟩

/-- C2 counterexample: at `n = 2 ^ 63` (a valid `usize` with `n ≥ 1`) the
loop guard evaluates `1 << 64`, a shift by the full width of `usize`; under
checked arithmetic the call panics instead of returning the claimed largest
exponent 63. -/
theorem log2_floor_panics_at_2_pow_63 :
    Multicore.log2_floor (2 ^ 63) = none ∧ (1 : Nat) ≤ 2 ^ 63 := by
  constructor
  · decide
  · decide

/-- C6: `log2_floor 0` aborts (the `assert!` fails), and for every
`1 ≤ n < 2 ^ 63` the call returns normally.  (The claim's "aborts only for
`n = 0`" fails at `n ≥ 2 ^ 63`, where the guard's shift overflows — see the
counterexample.) -/
theorem log2_floor_abort_behavior :
    Multicore.log2_floor 0 = none ∧
    (∀ n : Nat, n < 2 ^ 63 → 1 ≤ n → (Multicore.log2_floor n).isSome) := by
  constructor
  · rfl
  · intro n h63 h1
    obtain ⟨p, hp, -, -⟩ := Multicore.log2_floor_below n h1 h63
    rw [hp]
    rfl

/-- C6 witness: the amended statement instantiated at `n = 7`. -/
theorem log2_floor_abort_behavior_witness :
    Multicore.log2_floor 0 = none ∧ (Multicore.log2_floor 7).isSome :=
  ⟨log2_floor_abort_behavior.1,
   log2_floor_abort_behavior.2 7 (by decide) (by decide)⟩

/-- C6 counterexample: `n = 2 ^ 63` satisfies `n ≥ 1`, yet the call does
not return normally — under checked shift semantics it panics (`none`), so
the abort is not confined to `n = 0`. -/
theorem log2_floor_not_normal_at_2_pow_63 :
    ¬ (Multicore.log2_floor (2 ^ 63)).isSome ∧ (1 : Nat) ≤ 2 ^ 63 := by
  constructor
  · decide
  · decide

/-- C9: under release (masked-shift) semantics the loop terminates — within
64 iterations — for every `1 ≤ n < 2 ^ 63`.  (The claim's "including values
at or above `2 ^ 63`" fails: there the masked guard is true for every shift
amount, so the loop never exits — see the counterexample.) -/
theorem log2_floor_terminates_below_2_pow_63 :
    ∀ n : Nat, n < 2 ^ 63 → 1 ≤ n →
      (Multicore.log2FloorLoop n 0 64).isSome := by
  intro n h63 h1
  obtain ⟨p, hp, -, -⟩ :=
    Multicore.log2FloorLoop_spec 64 0 n (by simpa using h1) h63 (by simpa using (by omega : n < 2 ^ 64))
  rw [hp]
  rfl

/-- C9 witness: the amended statement instantiated at `n = 12`. -/
theorem log2_floor_terminates_below_2_pow_63_witness :
    (Multicore.log2FloorLoop 12 0 64).isSome :=
  log2_floor_terminates_below_2_pow_63 12 (by decide) (by decide)

/-- C1: amended chunk-size property.  In the multicore backend the
`chunk_size` passed to the callback is 1 when `elements < cpus` and
`elements / cpus` otherwise, and is always at least 1 when `cpus ≥ 1`.  In
the fallback backend `scope` passes `elements` itself — which coincides
with the formula at `cpu_count = 1` for every `elements ≥ 1`, but is 0 (not
the claimed 1) at `elements = 0` — see the counterexample. -/
theorem scope_chunk_size_amended (elements cpus : Nat) (hc : 1 ≤ cpus) :
    (Multicore.Worker.scope (Multicore.Worker.new_with_cpus cpus) elements
        (fun _ chunk => chunk)
      = if elements < cpus then 1 else elements / cpus) ∧
    1 ≤ Multicore.Worker.scope (Multicore.Worker.new_with_cpus cpus) elements
        (fun _ chunk => chunk) ∧
    Fallback.Worker.scope Fallback.Worker.new elements (fun _ chunk => chunk)
      = elements := by
  refine ⟨rfl, ?_, rfl⟩
  show 1 ≤ if elements < cpus then 1 else elements / cpus
  by_cases h : elements < cpus
  · rw [if_pos h]
  · rw [if_neg h]
    exact (Nat.one_le_div_iff hc).mpr (by omega)

/-- C1 witness: the amended statement instantiated at `elements = 10`,
`cpus = 4`. -/
theorem scope_chunk_size_amended_witness :
    (Multicore.Worker.scope (Multicore.Worker.new_with_cpus 4) 10
        (fun _ chunk => chunk)
      = if 10 < 4 then 1 else 10 / 4) ∧
    1 ≤ Multicore.Worker.scope (Multicore.Worker.new_with_cpus 4) 10
        (fun _ chunk => chunk) ∧
    Fallback.Worker.scope Fallback.Worker.new 10 (fun _ chunk => chunk) = 10 :=
  scope_chunk_size_amended 10 4 (by decide)

/-- C1 counterexample: with `elements = 0` (which is below every
`cpu_count ≥ 1`, so the claim demands `chunk_size = 1 ≥ 1`), the fallback
`scope` passes 0 to its callback. -/
theorem fallback_scope_chunk_zero :
    ¬ 1 ≤ Fallback.Worker.scope Fallback.Worker.new 0 (fun _ chunk => chunk) := by
  decide

/-- C3: in the fallback backend, `compute f` has already run `f` to
completion — including all of `f`'s side effects on the state — by the time
it returns, and polling the returned handle yields exactly `f`'s outcome
(`ready v` on success `v`, `err e` on failure `e`). -/
theorem fallback_compute_resolved :
    ∀ (S T E : Type) (w : Fallback.Worker) (f : S → S × Except E T) (s : S),
      ((w.computeSt f s).1 = (f s).1) ∧
      ((w.computeSt f s).2.poll
        = match (f s).2 with
          | .ok v => Poll.ready v
          | .error e => Poll.err e) ∧
      (∀ g : Unit → Except E T,
        (w.compute g).poll
          = match g () with
            | .ok v => Poll.ready v
            | .error e => Poll.err e) :=
  fun _ _ _ _ _ _ => ⟨rfl, rfl, fun _ => rfl⟩

/-- C4: the fallback `scope` invokes its callback exactly once, with the
scope handle and the size argument, and returns the callback's result;
`spawn` runs its closure inline before returning; hence a callback that
issues the spawns `gs` in order has applied all of them, in issued order,
to the state by the time `scope` returns. -/
theorem fallback_scope_spawn_inline :
    (∀ (R : Type) (w : Fallback.Worker) (n : Nat)
        (f : Fallback.DummyScope → Nat → R),
      w.scope n f = f ⟨⟩ n) ∧
    (∀ (S : Type) (sc : Fallback.DummyScope) (g : Fallback.DummyScope → S → S)
        (s : S),
      sc.spawnSt g s = g sc s) ∧
    (∀ (S : Type) (w : Fallback.Worker) (n : Nat) (gs : List (S → S)) (s : S),
      w.scopeSt n
          (fun sc _ s0 =>
            (gs.foldl (fun st g => sc.spawnSt (fun _ s1 => g s1) st) s0,
             PUnit.unit)) s
        = (gs.foldl (fun st g => g st) s, PUnit.unit)) ∧
    (∀ (w : Fallback.Worker) (n : Nat),
      w.scopeSt n (fun _ _ (count : Nat) => (count + 1, PUnit.unit)) 0
        = (1, PUnit.unit)) :=
  ⟨fun _ _ _ _ => rfl, fun _ _ _ _ => rfl, fun _ _ _ _ _ => rfl,
   fun _ _ => rfl⟩

/-- C5: the CPU-count cache, under sequential calls: after any
`Worker::new` the loaded flag is set; a second `Worker::new` performs no
write at all (the global state is unchanged) and yields a worker with the
same `cpus`; and the first call from the initial state is the one that
writes the detected value. -/
theorem worker_new_cache_idempotent :
    ∀ (d1 d2 : Nat) (g : Multicore.GlobalState),
      ((Multicore.Worker.new d1 g).1.has_loaded = true) ∧
      ((Multicore.Worker.new d2 (Multicore.Worker.new d1 g).1).1
        = (Multicore.Worker.new d1 g).1) ∧
      ((Multicore.Worker.new d2 (Multicore.Worker.new d1 g).1).2.cpus
        = (Multicore.Worker.new d1 g).2.cpus) ∧
      ((Multicore.Worker.new d1 Multicore.initialGlobal).1
        = { num_cpus := d1, has_loaded := true }) := by
  intro d1 d2 g
  cases hg : g.has_loaded <;>
    simp [Multicore.Worker.new, Multicore.Worker.new_with_cpus,
      Multicore.initialGlobal, hg]

/-- C7: polling a `WorkerFuture` yields exactly what polling the wrapped
backend handle yields, in both backends: the multicore wrapper delegates to
the `CpuFuture`'s poll (so it reports not-ready / ready / err exactly as
the inner handle does), and the fallback wrapper delegates to the
`FutureResult`'s poll. -/
theorem worker_future_poll_delegates :
    ∀ (T E : Type) (wm : Multicore.WorkerFuture T E)
      (wf : Fallback.WorkerFuture T E) (st : Poll T E),
      wm.poll = wm.future.poll ∧
      Multicore.WorkerFuture.poll ⟨⟨st⟩⟩ = st ∧
      wf.poll = wf.future.poll :=
  fun _ _ _ _ _ => ⟨rfl, rfl, rfl⟩

/-- C8: amended.  The two backends' `compute` return different nominal
handle types — `WorkerFuture<R::Item, R::Error>` in the multicore backend
versus `R::Future` in the fallback backend (see the counterexample) — but
the handles are behaviorally interchangeable: once the multicore task has
completed, polling either backend's handle yields exactly `f`'s outcome. -/
theorem compute_backend_agnostic_amended :
    ∀ (T E : Type) (w : Multicore.Worker) (fw : Fallback.Worker)
      (f : Unit → Except E T),
      (Multicore.Worker.compute w true f).poll
        = (Fallback.Worker.compute fw f).poll ∧
      Multicore.computeReturnTy ≠ Fallback.computeReturnTy :=
  fun _ _ _ _ f =>
    ⟨by
      cases h : f () <;>
        simp [Multicore.Worker.compute, Multicore.WorkerFuture.poll,
          Multicore.CpuFuture.poll, Multicore.CpuPool.spawn_fn,
          Fallback.Worker.compute, Fallback.FutureResult.poll,
          Fallback.resultIntoFuture, h],
     by decide⟩

/-- C8 counterexample: the multicore `compute` returns the backend's
`WorkerFuture` wrapper, but the fallback `compute` does not — its return
type is `R::Future`, the resolved future produced by `into_future`, so the
two backends do not return the same asynchronous handle type. -/
theorem compute_handle_types_differ :
    Multicore.computeReturnTy = HandleTy.workerFuture ∧
    Fallback.computeReturnTy ≠ HandleTy.workerFuture := by
  decide

/-- C10: the fallback `log_num_cpus` returns 0 for every worker,
unconditionally — exactly the value a multicore worker with `cpus = 1`
reports, since `log2_floor 1 = 0`. -/
theorem fallback_log_num_cpus_zero :
    ∀ w : Fallback.Worker,
      Fallback.Worker.log_num_cpus w = 0 ∧
      Multicore.Worker.log_num_cpus (Multicore.Worker.new_with_cpus 1)
        = some 0 ∧
      some (Fallback.Worker.log_num_cpus w)
        = Multicore.Worker.log_num_cpus (Multicore.Worker.new_with_cpus 1) := by
  intro w
  refine ⟨rfl, by decide, ?_⟩
  have h : Multicore.Worker.log_num_cpus (Multicore.Worker.new_with_cpus 1)
      = some 0 := by decide
  rw [h]
  rfl

/-- C9 counterexample: at `n = 2 ^ 63` the masked guard
`1 << ((pow + 1) % 64) <= num` holds for every `pow`, so no iteration bound
makes the loop exit: the call never terminates under release semantics. -/
theorem log2_floor_release_diverges_at_2_pow_63 :
    ¬ Multicore.log2FloorLoopTerminates (2 ^ 63) := by
  rintro ⟨fuel, hf⟩
  rw [Multicore.log2FloorLoop_guard_always (2 ^ 63) (le_refl _) fuel 0] at hf
  exact Bool.noConfusion hf
